import Mathlib

/-!
Verification development for the NeoChat chat relay.

The definitions below are a shallow embedding of the session/broadcast
engine of the three server variants (`server_tcp.py`, `server_https.py`,
`server_ws.py`).  Python dictionaries are modelled as association lists
with the usual lookup/insert/delete operations, timestamps are passed in
as parameters, and the outcome of network or file I/O (a write to a
client socket, a snapshot write to disk) is modelled by boolean
parameters describing the external world.
-/

/-- A chat message as built by the servers: a JSON object with a
`type` field (`system` or `message`), a time string, an optional
`username` and the text. -/
structure Msg where
  kind : String
  time : String
  username : Option String
  text : String
deriving DecidableEq

/-- A system message (no username), as built throughout the servers. -/
def systemMsg (ts text : String) : Msg :=
  ⟨"system", ts, none, text⟩

/-- A chat message carrying its author. -/
def chatMsg (ts user text : String) : Msg :=
  ⟨"message", ts, some user, text⟩

/-! Association lists modelling Python dictionaries. -/

/-- Lookup of a key in an association list (Python `d[k]` / `d.get(k)`). -/
def lookupKey [DecidableEq κ] (k : κ) : List (κ × α) → Option α
  | [] => none
  | p :: rest => if p.1 = k then some p.2 else lookupKey k rest

/-- Membership of a key (Python `k in d`). -/
def hasKey [DecidableEq κ] (k : κ) (l : List (κ × α)) : Bool :=
  (lookupKey k l).isSome

/-- Deletion of a key (Python `del d[k]`, a no-op when absent). -/
def removeKey [DecidableEq κ] (k : κ) : List (κ × α) → List (κ × α)
  | [] => []
  | p :: rest => if p.1 = k then removeKey k rest else p :: removeKey k rest

/-- Insertion or update of a key (Python `d[k] = v`); an existing key is
updated in place, a fresh key is appended at the end, matching the
insertion-order semantics of `dict`. -/
def setKey [DecidableEq κ] (k : κ) (v : α) : List (κ × α) → List (κ × α)
  | [] => [(k, v)]
  | p :: rest => if p.1 = k then (k, v) :: rest else p :: setKey k v rest

/-- The keys of an association list (Python `d.keys()`). -/
def keysOf (l : List (κ × α)) : List κ :=
  l.map Prod.fst

/-- The values of an association list (Python `d.values()`). -/
def valuesOf (l : List (κ × α)) : List α :=
  l.map Prod.snd

/-! Decimal digit strings.  The servers build collision suffixes with
Python f-strings, i.e. with the decimal representation of the counter;
`charVal` and `valDigits` are only used to prove that representation
injective. -/

/-- Numeric value of a decimal digit character. -/
def charVal (c : Char) : Nat :=
  c.toNat - 48

/-- Value of a list of decimal digit characters, most significant first. -/
def valDigits : List Char → Nat
  | [] => 0
  | c :: cs => charVal c * 10 ^ cs.length + valDigits cs

/-- The candidate name built by the collision loop of all three servers:
the requested name followed by an underscore and the decimal counter. -/
def mkCand (orig : String) (k : Nat) : String :=
  orig ++ "_" ++ Nat.repr k

/-- The collision loop shared by the servers: starting from `counter`,
try suffixed candidates until one is not a live name.  The fuel argument
bounds the number of iterations; `resolveName` passes enough fuel for
the loop to always find a free candidate, so the fuel-exhausted branch
is unreachable (see `exists_free_cand`). -/
def resolveFrom (orig : String) (live : List String) : Nat → Nat → String
  | counter, 0 => mkCand orig counter
  | counter, fuel + 1 =>
    if mkCand orig counter ∈ live then resolveFrom orig live (counter + 1) fuel
    else mkCand orig counter

/-- Username resolution against the currently live names: keep the
requested name when free, otherwise append `_1`, `_2`, … until free. -/
def resolveName (orig : String) (live : List String) : String :=
  if orig ∈ live then resolveFrom orig live 1 (live.length + 1) else orig

/-- Resolved names of a sequence of registrations all requesting the
same name, each resolved name joining the live set for the next one. -/
def resolveSeq (orig : String) (live : List String) : Nat → List String
  | 0 => []
  | n + 1 => resolveName orig live :: resolveSeq orig (resolveName orig live :: live) n

/-! String primitives.  The embedding re-implements the handful of
Python `str` methods the servers use (`startswith`, `split()[0]`,
`lower`, `strip`, `','.join`, substring-before-colon, containment) by
structural recursion over the character list of the string, mirroring
their semantics on the inputs the servers feed them. -/

/-- Whether the first list is a prefix of the second
(Python `s.startswith(p)` on character lists). -/
def isPrefixList : List Char → List Char → Bool
  | [], _ => true
  | _ :: _, [] => false
  | c :: cs, d :: ds => if c = d then isPrefixList cs ds else false

/-- Python `s.startswith(p)`. -/
def strStartsWith (s p : String) : Bool :=
  isPrefixList p.data s.data

/-- Python `s.split()[0]`: the first whitespace-delimited token. -/
def firstToken (s : String) : String :=
  ⟨(s.data.dropWhile (fun c => c.isWhitespace)).takeWhile (fun c => !(c.isWhitespace))⟩

/-- Python `s.lower()`. -/
def strToLower (s : String) : String :=
  ⟨s.data.map Char.toLower⟩

/-- Python `c in s` for a single character. -/
def strContains (s : String) (c : Char) : Bool :=
  s.data.any (fun d => decide (d = c))

/-- Python `s.split(sep, 1)[0]` for a one-character separator: the part
of the string before the first occurrence of the character. -/
def beforeChar (s : String) (c : Char) : String :=
  ⟨s.data.takeWhile (fun d => decide (d ≠ c))⟩

/-- Python `s.strip()`. -/
def strTrim (s : String) : String :=
  ⟨((s.data.dropWhile (fun c => c.isWhitespace)).reverse.dropWhile
      (fun c => c.isWhitespace)).reverse⟩

/-- Python `', '.join(names)`. -/
def joinComma : List String → String
  | [] => ""
  | [s] => s
  | s :: rest => s ++ ", " ++ joinComma rest

/-- Command replies, shared verbatim by the TCP and HTTPS servers.  The
keyword is the first whitespace token, lowercased; `uptimeStr` stands
for the formatted uptime and `saveOk` for the outcome of the snapshot
write triggered by `/savelog`. -/
def commandResponse (onlineNames : List String) (messageCount : Nat)
    (ts uptimeStr command : String) (saveOk : Bool) : Msg :=
  let cmd := strToLower (firstToken command)
  if cmd = "/help" then
    systemMsg ts ("可用命令: /help, /online, /ping, /stats, /savelog")
  else if cmd = "/online" then
    systemMsg ts ("在线用户 (" ++ Nat.repr onlineNames.length ++ "): "
      ++ joinComma onlineNames)
  else if cmd = "/ping" then
    systemMsg ts ("Pong! 服务器运行正常")
  else if cmd = "/stats" then
    systemMsg ts ("服务器统计: 运行时长 " ++ uptimeStr ++ "秒, 消息总数 "
      ++ Nat.repr messageCount ++ ", 在线人数 " ++ Nat.repr onlineNames.length)
  else if cmd = "/savelog" then
    if saveOk then systemMsg ts ("日志已手动保存") else systemMsg ts ("日志保存失败")
  else
    systemMsg ts ("未知命令: " ++ cmd ++ "，输入 /help 查看帮助")

/-- HTTP header names recognised by the protocol-noise filter of the
TCP receive loop. -/
def httpHeaderNames : List String :=
  ["Host", "User-Agent", "Accept", "Accept-Encoding", "Accept-Language",
   "Connection", "Content-Type", "Content-Length", "Origin", "Referer",
   "Cache-Control", "Pragma", "Authorization", "Cookie", "Set-Cookie",
   "Access-Control-Request-Method", "Access-Control-Request-Headers",
   "X-Forwarded-For", "X-Forwarded-Proto", "X-Real-Ip", "X-Original-Host",
   "Sec-Fetch-Dest", "Sec-Fetch-Mode", "Sec-Fetch-Site", "Priority",
   "Upgrade", "Sec-WebSocket-Key", "Sec-WebSocket-Version"]

/-- The protocol-noise check of the TCP receive loop: HTTP request
lines, status lines, and known header lines are silently dropped. -/
def isHttpNoise (message : String) : Bool :=
  (["GET ", "POST ", "PUT ", "DELETE ", "HEAD ", "OPTIONS ", "PATCH ",
    "TRACE ", "CONNECT "].any (fun p => strStartsWith message p))
  || strStartsWith message ("HTTP/")
  || (strContains message (':')
      && httpHeaderNames.any (fun h => decide (h = strTrim (beforeChar message (':')))))

/-- State of the TCP chat server: the live client registry
(writer id to username), per-writer connection info reduced to the peer
ip (the only field the logic branches on), the ip deduplication index,
the in-memory message history, the cumulative message counter, and the
list of writer handles that have been forcibly closed. -/
structure TCPState where
  clients : List (Nat × String)
  clientInfo : List (Nat × String)
  ipToWriter : List (String × Nat)
  messages : List Msg
  messageCount : Nat
  closed : List Nat
deriving DecidableEq

namespace TCPChatServer

/-- The broadcast fan-out: attempt delivery to every live client except
the excluded writer, the outcome of each socket write given by `ok`;
afterwards every failed client is deleted from `clients` and
`client_info`.  Returns the new state, the writers that received the
message and the writers that failed.  The message history is not
touched here; chat messages are appended by the caller before the
fan-out. -/
def broadcast (st : TCPState) (ok : Nat → Bool) (exclude : Option Nat) :
    TCPState × List Nat × List Nat :=
  if st.clients.isEmpty then (st, ([], []))
  else
    let attempted := (keysOf st.clients).filter (fun w => decide (some w ≠ exclude))
    let delivered := attempted.filter (fun w => ok w)
    let failed := attempted.filter (fun w => !(ok w))
    ({ st with
        clients := st.clients.filter (fun p => !(decide (p.1 ∈ failed))),
        clientInfo := st.clientInfo.filter (fun p => !(decide (p.1 ∈ failed))) },
      (delivered, failed))

/-- TCP `handle_command`: build the reply and write it to the invoking
writer only; the server state is untouched (`/savelog` performs only
the snapshot write, whose success is the `saveOk` parameter). -/
def handle_command (st : TCPState) (writer : Nat) (command ts uptimeStr : String)
    (saveOk : Bool) : TCPState × List (Nat × Msg) :=
  (st, [(writer, commandResponse (valuesOf st.clients) st.messageCount ts uptimeStr command saveOk)])

/-- One iteration of the TCP receive loop on a stripped inbound line:
empty and protocol-noise lines are dropped; any other line first bumps
the cumulative message counter, then either a `/` command is handled
(unicast reply) or the chat message is appended to history and
broadcast to everyone but the sender. -/
def process_line (st : TCPState) (writer : Nat) (username line ts uptimeStr : String)
    (saveOk : Bool) (ok : Nat → Bool) : TCPState × List (Nat × Msg) :=
  if line = "" then (st, [])
  else if isHttpNoise line then (st, [])
  else
    let st1 : TCPState := { st with messageCount := st.messageCount + 1 }
    if strStartsWith line ("/") then
      handle_command st1 writer line ts uptimeStr saveOk
    else
      let m := chatMsg ts username line
      let st2 : TCPState := { st1 with messages := st1.messages ++ [m] }
      let r := broadcast st2 ok (some writer)
      (r.1, r.2.1.map (fun w => (w, m)))

/-- TCP `_clear_memory`: drop the in-memory history and reset the
cumulative message counter. -/
def clear_memory (st : TCPState) : TCPState :=
  { st with messages := [], messageCount := 0 }

/-- One tick of the periodic save-and-clear task: the in-memory history
is cleared only when the snapshot write succeeded. -/
def periodic_save_and_clear (st : TCPState) (saveOk : Bool) : TCPState :=
  if saveOk then clear_memory st else st

/-- Connection handling of `handle_client` through a successful
handshake: evict a previous live connection from the same peer ip
(closing its handle and deleting its registry entries), record the new
connection in `client_info` and the ip index, resolve the requested
username against the live names, register the client, append the join
system message and broadcast it to everyone else (each join-broadcast
write outcome given by `okJoin`). -/
def handle_client_connect (st : TCPState) (writer : Nat) (ip requested ts : String)
    (okJoin : Nat → Bool) : TCPState :=
  let st1 : TCPState :=
    match lookupKey ip st.ipToWriter with
    | some oldW =>
      if hasKey oldW st.clients then
        { st with closed := st.closed ++ [oldW],
                  clients := removeKey oldW st.clients,
                  clientInfo := removeKey oldW st.clientInfo }
      else st
    | none => st
  let st2 : TCPState := { st1 with clientInfo := setKey writer ip st1.clientInfo,
                                   ipToWriter := setKey ip writer st1.ipToWriter }
  let resolved := resolveName requested (valuesOf st2.clients)
  let st3 : TCPState := { st2 with
    clients := setKey writer resolved st2.clients,
    messages := st2.messages ++ [systemMsg ts (resolved ++ " 加入了聊天室")] }
  (broadcast st3 okJoin (some writer)).1

/-- Well-formedness of the peer index: every live client's writer has a
recorded peer ip, and the ip index entry for that ip points back to the
writer.  This is the invariant that makes "at most one live session per
peer address" hold. -/
def perPeerOK (st : TCPState) : Bool :=
  st.clients.all (fun p =>
    match lookupKey p.1 st.clientInfo with
    | some ip => decide (lookupKey ip st.ipToWriter = some p.1)
    | none => false)

end TCPChatServer

/-- State of the WebSocket chat server: the live client registry
(websocket id to username), per-socket connection info reduced to the
peer address, and the cumulative message counter.  This variant keeps
no message history. -/
structure WSState where
  clients : List (Nat × String)
  clientInfo : List (Nat × String)
  messageCount : Nat
deriving DecidableEq

namespace ChatServer

/-- The WebSocket broadcast fan-out.  In the source, `client.send(message)`
inside the collection loop only builds a coroutine and never raises, so
the failed-clients list stays empty; the sends are then awaited through
`gather(..., return_exceptions=True)` (each client's outcome given by
`ok`) and per-client failures are only logged.  Consequently the
cleanup loop runs over an empty list: no client is ever evicted and
the state is returned unchanged.  Returns the state, the clients whose
send succeeded, and the (always empty) failed-clients list. -/
def broadcast (st : WSState) (ok : Nat → Bool) (exclude : Option Nat) :
    WSState × List Nat × List Nat :=
  if st.clients.isEmpty then (st, ([], []))
  else
    let attempted := (keysOf st.clients).filter (fun w => decide (some w ≠ exclude))
    let delivered := attempted.filter (fun w => ok w)
    let failed_clients : List Nat := []
    (st, (delivered, failed_clients))

end ChatServer

/-- Result of the HTTPS `send_message` operation: the typed error
payload for an unknown or expired session, the message object echoed
in the success payload, or the marker for a call that never returns
(the `/savelog` lock deadlock, see `HTTPChatServer.handle_command`). -/
inductive SendResult where
  | err (text : String)
  | delivered (m : Msg)
  | deadlocked
deriving DecidableEq

/-- Result of `GET /messages`: either the 401 session-expired payload,
or the message list from the requested index together with the total
history length. -/
inductive PollResult where
  | expired
  | polled (msgs : List Msg) (total : Nat)
deriving DecidableEq

/-- State of the HTTPS chat server: session id to username, the reverse
username index, per-session last-activity times (numeric timestamps),
the in-memory message history, the cumulative message counter and the
session id counter. -/
structure HTTPState where
  clients : List (String × String)
  usernameToSession : List (String × String)
  clientActivity : List (String × Nat)
  messages : List Msg
  messageCount : Nat
  sessionCounter : Nat
deriving DecidableEq

namespace HTTPChatServer

/-- HTTPS `create_session`: a requested username that is already bound
to a live session first evicts that session; then a fresh session id is
minted, the name is resolved against the live names, the session is
registered in all three maps and a join system message is appended.
Returns the new state, the session id and the resolved name. -/
def create_session (st : HTTPState) (username ts tsStamp : String) (now : Nat) :
    HTTPState × String × String :=
  let st1 : HTTPState :=
    match lookupKey username st.usernameToSession with
    | some oldSid =>
      if hasKey oldSid st.clients then
        { st with clients := removeKey oldSid st.clients,
                  clientActivity := removeKey oldSid st.clientActivity }
      else st
    | none => st
  let counter := st1.sessionCounter + 1
  let sid := "session_" ++ Nat.repr counter ++ "_" ++ tsStamp
  let resolved := resolveName username (valuesOf st1.clients)
  let st2 : HTTPState :=
    { st1 with sessionCounter := counter,
               clients := setKey sid resolved st1.clients,
               usernameToSession := setKey resolved sid st1.usernameToSession,
               clientActivity := setKey sid now st1.clientActivity,
               messages := st1.messages ++ [systemMsg ts (resolved ++ " 加入了聊天室")] }
  (st2, (sid, resolved))

/-- HTTPS `remove_session`: remove a live session from all three maps
and append its leave system message, returning `true`; an unknown id is
a no-op returning `false`. -/
def remove_session (st : HTTPState) (sid ts : String) : Bool × HTTPState :=
  match lookupKey sid st.clients with
  | none => (false, st)
  | some username =>
    (true,
      { st with clients := removeKey sid st.clients,
                usernameToSession :=
                  if lookupKey username st.usernameToSession = some sid
                  then removeKey username st.usernameToSession
                  else st.usernameToSession,
                clientActivity := removeKey sid st.clientActivity,
                messages := st.messages ++ [systemMsg ts (username ++ " 离开了聊天室")] })

/-- HTTPS `update_activity`: refresh the last-activity time of a live
session, returning whether the session id was known. -/
def update_activity (st : HTTPState) (sid : String) (now : Nat) : Bool × HTTPState :=
  if hasKey sid st.clients then
    (true, { st with clientActivity := setKey sid now st.clientActivity })
  else (false, st)

/-- HTTPS `handle_command`: builds the same reply as the TCP dispatcher
and appends it to the shared message history (all pollers will see
it).  Its only call site is `send_message`, which already holds the
server's non-reentrant lock; the `/savelog` branch then calls
`_save_logs_to_file`, which tries to re-acquire that same lock and
deadlocks, so for `/savelog` the call never returns and no reply is
ever built or appended — modelled by `none`. -/
def handle_command (st : HTTPState) (command ts uptimeStr : String) (saveOk : Bool) :
    Option (HTTPState × Msg) :=
  if strToLower (firstToken command) = "/savelog" then none
  else
    let resp := commandResponse (valuesOf st.clients) st.messageCount ts uptimeStr command saveOk
    some ({ st with messages := st.messages ++ [resp] }, resp)

/-- HTTPS `send_message`: an unknown session id yields the typed error
payload and leaves the state unchanged; otherwise the activity time is
refreshed, a `/` line is dispatched as a command, and a chat line bumps
the counter and is appended to history.  A command dispatch that never
returns (the `/savelog` deadlock) surfaces as the `deadlocked` marker,
paired with the state at the moment of blocking: only the activity
refresh has happened and nothing has been appended. -/
def send_message (st : HTTPState) (sid message ts uptimeStr : String) (now : Nat)
    (saveOk : Bool) : SendResult × HTTPState :=
  match lookupKey sid st.clients with
  | none => (SendResult.err ("无效的会话ID，可能已超时"), st)
  | some username =>
    let st1 : HTTPState := { st with clientActivity := setKey sid now st.clientActivity }
    if strStartsWith message ("/") then
      match handle_command st1 message ts uptimeStr saveOk with
      | none => (SendResult.deadlocked, st1)
      | some r => (SendResult.delivered r.2, r.1)
    else
      let m := chatMsg ts username message
      (SendResult.delivered m,
        { st1 with messageCount := st1.messageCount + 1,
                   messages := st1.messages ++ [m] })

/-- HTTPS `get_messages`: the history from the requested index on. -/
def get_messages (st : HTTPState) (since : Nat) : List Msg :=
  st.messages.drop since

/-- The `GET /messages` handler: with a nonempty session id the
activity refresh doubles as a session check, and an unknown session
yields the 401 session-expired payload; otherwise the messages from
`since` and the total history length are returned. -/
def poll_messages (st : HTTPState) (since : Nat) (sid : String) (now : Nat) :
    PollResult × HTTPState :=
  if sid = "" then (PollResult.polled (get_messages st since) st.messages.length, st)
  else
    let r := update_activity st sid now
    if r.1 then (PollResult.polled (get_messages r.2 since) r.2.messages.length, r.2)
    else (PollResult.expired, r.2)

/-- Eviction of one timed-out session inside the cleanup sweep: remove
it from all three maps and append the timeout leave message; a session
id no longer live is skipped. -/
def sweep_one (ts : String) (st : HTTPState) (sid : String) : HTTPState :=
  match lookupKey sid st.clients with
  | none => st
  | some username =>
    { st with clients := removeKey sid st.clients,
              clientActivity := removeKey sid st.clientActivity,
              usernameToSession :=
                if lookupKey username st.usernameToSession = some sid
                then removeKey username st.usernameToSession
                else st.usernameToSession,
              messages := st.messages ++ [systemMsg ts (username ++ " 连接超时，已离开聊天室")] }

/-- One tick of the liveness sweeper `_cleanup_inactive_sessions`:
collect every session whose last activity is more than the 300 second
timeout before `now`, then evict each in turn. -/
def cleanup_inactive_sessions (st : HTTPState) (now : Nat) (ts : String) : HTTPState :=
  let inactive := (st.clientActivity.filter (fun p => decide (now - p.2 > 300))).map Prod.fst
  inactive.foldl (sweep_one ts) st

/-- HTTPS `_clear_memory`: drop the in-memory history and reset the
cumulative message counter. -/
def clear_memory (st : HTTPState) : HTTPState :=
  { st with messages := [], messageCount := 0 }

/-- One tick of the periodic save-and-clear task: the in-memory history
is cleared only when the snapshot write succeeded. -/
def periodic_save_and_clear (st : HTTPState) (saveOk : Bool) : HTTPState :=
  if saveOk then clear_memory st else st

end HTTPChatServer

/-! Concrete states used by counterexamples and witnesses. -/

/-- A TCP state with two live clients, bob and carol. -/
def exampleTCP2 : TCPState :=
  ⟨[(1, "bob"), (2, "carol")], [(1, "ipA"), (2, "ipB")], [("ipA", 1), ("ipB", 2)], [], 0, []⟩

/-- A TCP state with one live client named bob and one history entry. -/
def exampleTCP1 : TCPState :=
  ⟨[(1, "bob")], [(1, "ip1")], [("ip1", 1)], [systemMsg ("t0") ("bob 加入了聊天室")], 0, []⟩

/-- A TCP state with one live client named alice. -/
def exampleTCPalice : TCPState :=
  ⟨[(1, "alice")], [(1, "ip1")], [("ip1", 1)], [], 0, []⟩

/-- The empty HTTPS server state. -/
def exampleHTTP0 : HTTPState :=
  ⟨[], [], [], [], 0, 0⟩

/-- An HTTPS state with two live sessions, alice and bob. -/
def exampleHTTP2 : HTTPState :=
  ⟨[("sA", "alice"), ("sB", "bob")], [("alice", "sA"), ("bob", "sB")],
   [("sA", 0), ("sB", 0)], [], 0, 2⟩

/-- A WebSocket state with two live clients, bob and carol. -/
def exampleWS2 : WSState :=
  ⟨[(1, "bob"), (2, "carol")], [(1, "ipA"), (2, "ipB")], 0⟩

/-- An HTTPS state with one stale session (alice, last active at 0) and
one fresh session (bob, last active at 900). -/
def exampleHTTPsweep : HTTPState :=
  ⟨[("s1", "alice"), ("s2", "bob")], [("alice", "s1"), ("bob", "s2")],
   [("s1", 0), ("s2", 900)], [], 0, 2⟩

theorem lookupKey_eq_none_iff [DecidableEq κ] (k : κ) (l : List (κ × α)) :
    lookupKey k l = none ↔ k ∉ keysOf l := by
  induction l with
  | nil => simp [lookupKey, keysOf]
  | cons p rest ih =>
    by_cases h : p.1 = k
    · simp [lookupKey, keysOf, h]
    · have h2 : k ≠ p.1 := fun he => h he.symm
      simp [lookupKey, keysOf, h, h2, ih]

theorem mem_of_lookupKey_eq_some [DecidableEq κ] {k : κ} {v : α} {l : List (κ × α)}
    (h : lookupKey k l = some v) : (k, v) ∈ l := by
  induction l with
  | nil => simp [lookupKey] at h
  | cons p rest ih =>
    by_cases hp : p.1 = k
    · simp [lookupKey, hp] at h
      subst hp
      simp [← h]
    · simp [lookupKey, hp] at h
      exact List.mem_cons_of_mem _ (ih h)

theorem lookupKey_eq_some_of_mem [DecidableEq κ] {k : κ} {v : α} {l : List (κ × α)}
    (hnd : (keysOf l).Nodup) (h : (k, v) ∈ l) : lookupKey k l = some v := by
  induction l with
  | nil => simp at h
  | cons p rest ih =>
    rw [keysOf, List.map_cons, List.nodup_cons] at hnd
    obtain ⟨hnotin, hnd2⟩ := hnd
    rcases List.mem_cons.mp h with h1 | h2
    · subst h1
      simp [lookupKey]
    · have hk : p.1 ≠ k := by
        intro he
        exact hnotin (he ▸ List.mem_map.mpr ⟨(k, v), h2, rfl⟩)
      exact (by simpa [lookupKey, hk] using ih hnd2 h2)

theorem lookupKey_removeKey_self [DecidableEq κ] (k : κ) (l : List (κ × α)) :
    lookupKey k (removeKey k l) = none := by
  induction l with
  | nil => rfl
  | cons p rest ih =>
    by_cases h : p.1 = k
    · simpa [removeKey, h] using ih
    · simpa [removeKey, h, lookupKey] using ih

theorem lookupKey_removeKey_ne [DecidableEq κ] {k k2 : κ} (h : k ≠ k2) (l : List (κ × α)) :
    lookupKey k (removeKey k2 l) = lookupKey k l := by
  induction l with
  | nil => rfl
  | cons p rest ih =>
    by_cases hp : p.1 = k2
    · have hpk : p.1 ≠ k := by rw [hp]; exact fun he => h he.symm
      have hne : k2 ≠ k := fun he => h he.symm
      simpa [removeKey, hp, lookupKey, hpk, hne] using ih
    · by_cases hk : p.1 = k
      · have hne : k ≠ k2 := h
        simp [removeKey, hp, lookupKey, hk, hne]
      · simpa [removeKey, hp, lookupKey, hk] using ih

theorem lookupKey_setKey_self [DecidableEq κ] (k : κ) (v : α) (l : List (κ × α)) :
    lookupKey k (setKey k v l) = some v := by
  induction l with
  | nil => simp [setKey, lookupKey]
  | cons p rest ih =>
    by_cases hp : p.1 = k
    · simp [setKey, hp, lookupKey]
    · simpa [setKey, hp, lookupKey] using ih

theorem lookupKey_setKey_ne [DecidableEq κ] {k k2 : κ} (h : k ≠ k2) (v : α) (l : List (κ × α)) :
    lookupKey k (setKey k2 v l) = lookupKey k l := by
  have hne : k2 ≠ k := fun he => h he.symm
  induction l with
  | nil => simp [setKey, lookupKey, hne]
  | cons p rest ih =>
    by_cases hp : p.1 = k2
    · have hpk : p.1 ≠ k := by rw [hp]; exact hne
      simp [setKey, hp, lookupKey, hpk, hne]
    · by_cases hk : p.1 = k
      · simp [setKey, hp, lookupKey, hk, h]
      · simpa [setKey, hp, lookupKey, hk] using ih

/-! Injectivity of the decimal representation. -/

theorem charVal_digitChar : ∀ m, m < 10 → charVal (Nat.digitChar m) = m := by decide

theorem valDigits_toDigitsCore (fuel : Nat) :
    ∀ (n : Nat) (ds : List Char), n < 10 ^ fuel →
      valDigits (Nat.toDigitsCore 10 fuel n ds) = n * 10 ^ ds.length + valDigits ds := by
  induction fuel with
  | zero =>
    intro n ds hn
    have hn0 : n = 0 := by simpa using Nat.lt_one_iff.mp hn
    subst hn0
    simp [Nat.toDigitsCore]
  | succ fuel ih =>
    intro n ds hn
    by_cases hdiv : n / 10 = 0
    · have hlt : n < 10 := by omega
      have hstep : Nat.toDigitsCore 10 (fuel + 1) n ds = Nat.digitChar (n % 10) :: ds := by
        simp [Nat.toDigitsCore, hdiv]
      rw [hstep]
      simp only [valDigits, List.length_cons]
      rw [charVal_digitChar (n % 10) (Nat.mod_lt n (by norm_num))]
      have hmod : n % 10 = n := Nat.mod_eq_of_lt hlt
      rw [hmod]
    · have hstep : Nat.toDigitsCore 10 (fuel + 1) n ds
          = Nat.toDigitsCore 10 fuel (n / 10) (Nat.digitChar (n % 10) :: ds) := by
        simp [Nat.toDigitsCore, hdiv]
      rw [hstep]
      have hlt2 : n / 10 < 10 ^ fuel := by
        rw [pow_succ] at hn
        exact (Nat.div_lt_iff_lt_mul (by norm_num)).mpr hn
      rw [ih (n / 10) (Nat.digitChar (n % 10) :: ds) hlt2]
      simp only [valDigits, List.length_cons]
      rw [charVal_digitChar (n % 10) (Nat.mod_lt n (by norm_num))]
      have hkey : n / 10 * 10 ^ (ds.length + 1) + n % 10 * 10 ^ ds.length
          = n * 10 ^ ds.length := by
        have hdm : 10 * (n / 10) + n % 10 = n := Nat.div_add_mod n 10
        calc n / 10 * 10 ^ (ds.length + 1) + n % 10 * 10 ^ ds.length
            = (10 * (n / 10) + n % 10) * 10 ^ ds.length := by ring
          _ = n * 10 ^ ds.length := by rw [hdm]
      linarith [hkey]

theorem valDigits_toDigits (n : Nat) : valDigits (Nat.toDigits 10 n) = n := by
  have h1 : n < 10 ^ (n + 1) := by
    calc n < 10 ^ n := Nat.lt_pow_self (by norm_num) n
      _ ≤ 10 ^ (n + 1) := Nat.pow_le_pow_right (by norm_num) (Nat.le_succ n)
  simpa [valDigits] using valDigits_toDigitsCore (n + 1) n [] h1

theorem natRepr_injective : Function.Injective Nat.repr := by
  intro m n h
  have hdata : Nat.toDigits 10 m = Nat.toDigits 10 n := by
    have h2 := congrArg String.data h
    simpa [Nat.repr, List.asString] using h2
  have h3 := congrArg valDigits hdata
  simpa [valDigits_toDigits] using h3

theorem mkCand_injective (orig : String) : Function.Injective (mkCand orig) := by
  intro i j h
  apply natRepr_injective
  apply String.ext
  have hd := congrArg String.data h
  simp only [mkCand, String.data_append, List.append_assoc] at hd
  exact List.append_cancel_left (List.append_cancel_left hd)

theorem mkCand_ne (orig : String) (k : Nat) : mkCand orig k ≠ orig := by
  intro h
  have hlen := congrArg String.length h
  rw [mkCand, String.length_append, String.length_append] at hlen
  have h1 : ("_" : String).length = 1 := rfl
  omega

/-! The collision loop always finds a free candidate. -/

theorem exists_free_cand (orig : String) (live : List String) (counter : Nat) :
    ∃ j, j < live.length + 1 ∧ mkCand orig (counter + j) ∉ live := by
  by_contra hcon
  push_neg at hcon
  have hsub : ((List.range (live.length + 1)).map (fun j => mkCand orig (counter + j))) ⊆ live := by
    intro x hx
    rcases List.mem_map.mp hx with ⟨j, hj, rfl⟩
    exact hcon j (List.mem_range.mp hj)
  have hinj : Function.Injective (fun j => mkCand orig (counter + j)) := by
    intro a b hab
    have h2 := mkCand_injective orig hab
    omega
  have hnd := (List.nodup_range (live.length + 1)).map hinj
  have hle := (hnd.subperm hsub).length_le
  simp at hle

theorem resolveFrom_spec (orig : String) (live : List String) :
    ∀ (fuel counter : Nat), (∃ j, j < fuel ∧ mkCand orig (counter + j) ∉ live) →
      ∃ j, j < fuel ∧ resolveFrom orig live counter fuel = mkCand orig (counter + j)
        ∧ mkCand orig (counter + j) ∉ live
        ∧ ∀ i, i < j → mkCand orig (counter + i) ∈ live := by
  intro fuel
  induction fuel with
  | zero =>
    rintro counter ⟨j, hj, _⟩
    omega
  | succ fuel ih =>
    rintro counter ⟨j, hj, hfree⟩
    by_cases hc : mkCand orig counter ∈ live
    · have hj0 : j ≠ 0 := by
        intro h0
        subst h0
        simp only [Nat.add_zero] at hfree
        exact hfree hc
      obtain ⟨j2, hj2, heq, hfree2, hmin⟩ := ih (counter + 1)
        ⟨j - 1, by omega, by
          have harith : counter + 1 + (j - 1) = counter + j := by omega
          rw [harith]
          exact hfree⟩
      refine ⟨j2 + 1, by omega, ?_, ?_, ?_⟩
      · have harith : counter + (j2 + 1) = counter + 1 + j2 := by omega
        rw [harith]
        simpa [resolveFrom, hc] using heq
      · have harith : counter + (j2 + 1) = counter + 1 + j2 := by omega
        rw [harith]
        exact hfree2
      · intro i hi
        cases i with
        | zero => simpa using hc
        | succ i =>
          have harith : counter + (i + 1) = counter + 1 + i := by omega
          rw [harith]
          exact hmin i (by omega)
    · exact ⟨0, by omega, by simp [resolveFrom, hc], by simpa using hc,
        fun i hi => absurd hi (by omega)⟩

theorem resolveName_not_mem (orig : String) (live : List String) :
    resolveName orig live ∉ live := by
  unfold resolveName
  by_cases h : orig ∈ live
  · simp only [h, if_true]
    obtain ⟨j, hj, hfree⟩ := exists_free_cand orig live 1
    obtain ⟨j2, _, heq, hfree2, _⟩ :=
      resolveFrom_spec orig live (live.length + 1) 1 ⟨j, hj, hfree⟩
    rw [heq]
    exact hfree2
  · rw [if_neg h]
    exact h

theorem resolveName_of_not_mem {orig : String} {live : List String} (h : orig ∉ live) :
    resolveName orig live = orig := by
  simp [resolveName, h]

theorem resolveName_least (orig : String) (live : List String) (h : orig ∈ live) :
    ∃ k, 1 ≤ k ∧ resolveName orig live = mkCand orig k ∧ mkCand orig k ∉ live
      ∧ ∀ i, 1 ≤ i → i < k → mkCand orig i ∈ live := by
  obtain ⟨j, hj, hfree⟩ := exists_free_cand orig live 1
  obtain ⟨j2, _, heq, hfree2, hmin⟩ :=
    resolveFrom_spec orig live (live.length + 1) 1 ⟨j, hj, hfree⟩
  refine ⟨1 + j2, by omega, ?_, hfree2, ?_⟩
  · simpa [resolveName, h] using heq
  · intro i h1 hi
    have harith : i = 1 + (i - 1) := by omega
    rw [harith]
    exact hmin (i - 1) (by omega)

theorem mem_resolveSeq_not_mem_live (orig : String) :
    ∀ (n : Nat) (live : List String) (x : String), x ∈ resolveSeq orig live n → x ∉ live := by
  intro n
  induction n with
  | zero =>
    intro live x hx
    simp [resolveSeq] at hx
  | succ n ih =>
    intro live x hx
    simp only [resolveSeq] at hx
    rcases List.mem_cons.mp hx with h1 | h2
    · subst h1
      exact resolveName_not_mem orig live
    · intro hmem
      exact ih (resolveName orig live :: live) x h2 (List.mem_cons_of_mem _ hmem)

theorem resolveSeq_nodup (orig : String) :
    ∀ (n : Nat) (live : List String), (resolveSeq orig live n).Nodup := by
  intro n
  induction n with
  | zero =>
    intro live
    simp [resolveSeq]
  | succ n ih =>
    intro live
    simp only [resolveSeq, List.nodup_cons]
    refine ⟨?_, ih _⟩
    intro hmem
    exact mem_resolveSeq_not_mem_live orig n _ _ hmem (List.mem_cons_self _ _)

theorem resolveSeq_pattern (orig : String) :
    ∀ (n m : Nat) (live : List String),
      orig ∈ live →
      (∀ k, m + 1 ≤ k → mkCand orig k ∉ live) →
      (∀ k, 1 ≤ k → k ≤ m → mkCand orig k ∈ live) →
      resolveSeq orig live n = (List.range n).map (fun i => mkCand orig (i + m + 1)) := by
  intro n
  induction n with
  | zero =>
    intro m live _ _ _
    simp [resolveSeq]
  | succ n ih =>
    intro m live hin hhigh hlow
    obtain ⟨k, hk1, heq, hkfree, hkmin⟩ := resolveName_least orig live hin
    have hkm : k = m + 1 := by
      by_contra hne
      rcases Nat.lt_or_ge k (m + 1) with hlt | hge
      · exact hkfree (hlow k hk1 (by omega))
      · have hgt : m + 1 < k := by omega
        exact hhigh (m + 1) (by omega) (hkmin (m + 1) (by omega) hgt)
    subst hkm
    simp only [resolveSeq]
    rw [heq]
    rw [ih (m + 1) (mkCand orig (m + 1) :: live) (List.mem_cons_of_mem _ hin)
      (by
        intro k hk
        simp only [List.mem_cons]
        rintro (heq2 | hmem)
        · have h2 := mkCand_injective orig heq2
          omega
        · exact hhigh k (by omega) hmem)
      (by
        intro k hk1 hk2
        rcases Nat.eq_or_lt_of_le hk2 with he | hlt
        · rw [he]
          exact List.mem_cons_self _ _
        · exact List.mem_cons_of_mem _ (hlow k hk1 (by omega)))]
    rw [List.range_succ_eq_map, List.map_cons, List.map_map]
    refine congrArg₂ List.cons ?_ ?_
    · have harith : 0 + m + 1 = m + 1 := by omega
      rw [harith]
    · refine List.map_congr_left ?_
      intro i _
      simp only [Function.comp]
      have harith : i + 1 + m + 1 = i + (m + 1) + 1 := by omega
      rw [harith]

/-! Further association-list lemmas. -/

theorem mem_removeKey [DecidableEq κ] {k : κ} {p : κ × α} {l : List (κ × α)} :
    p ∈ removeKey k l ↔ p ∈ l ∧ p.1 ≠ k := by
  induction l with
  | nil => simp [removeKey]
  | cons q rest ih =>
    by_cases hq : q.1 = k
    · rw [removeKey, if_pos hq, ih]
      constructor
      · rintro ⟨hm, hne⟩
        exact ⟨List.mem_cons_of_mem _ hm, hne⟩
      · rintro ⟨hm, hne⟩
        rcases List.mem_cons.mp hm with he | hm2
        · exact absurd (he ▸ hq) hne
        · exact ⟨hm2, hne⟩
    · rw [removeKey, if_neg hq]
      constructor
      · intro hm
        rcases List.mem_cons.mp hm with he | hm2
        · exact ⟨he ▸ List.mem_cons_self _ _, he ▸ hq⟩
        · exact ⟨List.mem_cons_of_mem _ (ih.mp hm2).1, (ih.mp hm2).2⟩
      · rintro ⟨hm, hne⟩
        rcases List.mem_cons.mp hm with he | hm2
        · exact he ▸ List.mem_cons_self _ _
        · exact List.mem_cons_of_mem _ (ih.mpr ⟨hm2, hne⟩)

theorem setKey_of_not_has [DecidableEq κ] {k : κ} (v : α) {l : List (κ × α)}
    (h : hasKey k l = false) : setKey k v l = l ++ [(k, v)] := by
  induction l with
  | nil => rfl
  | cons p rest ih =>
    by_cases hp : p.1 = k
    · simp [hasKey, lookupKey, hp] at h
    · have hr : hasKey k rest = false := by
        simpa [hasKey, lookupKey, hp] using h
      rw [setKey, if_neg hp, ih hr, List.cons_append]

theorem removeKey_of_not_has [DecidableEq κ] {k : κ} {l : List (κ × α)}
    (h : hasKey k l = false) : removeKey k l = l := by
  induction l with
  | nil => rfl
  | cons p rest ih =>
    by_cases hp : p.1 = k
    · simp [hasKey, lookupKey, hp] at h
    · have hr : hasKey k rest = false := by
        simpa [hasKey, lookupKey, hp] using h
      rw [removeKey, if_neg hp, ih hr]

theorem length_removeKey_of_mem [DecidableEq κ] {k : κ} {l : List (κ × α)}
    (hnd : (keysOf l).Nodup) (h : hasKey k l = true) :
    (removeKey k l).length + 1 = l.length := by
  induction l with
  | nil => simp [hasKey, lookupKey] at h
  | cons p rest ih =>
    rw [keysOf, List.map_cons, List.nodup_cons] at hnd
    by_cases hp : p.1 = k
    · have hnone : hasKey k rest = false := by
        have hlk : lookupKey k rest = none := by
          cases hv : lookupKey k rest with
          | none => rfl
          | some v =>
            exact absurd (hp ▸ List.mem_map.mpr ⟨(k, v), mem_of_lookupKey_eq_some hv, rfl⟩) hnd.1
        simp [hasKey, hlk]
      rw [removeKey, if_pos hp, removeKey_of_not_has hnone]
      simp
    · have hr : hasKey k rest = true := by
        simpa [hasKey, lookupKey, hp] using h
      rw [removeKey, if_neg hp]
      simp only [List.length_cons]
      rw [ih hnd.2 hr]

theorem keysOf_filter_subset (q : κ × α → Bool) (l : List (κ × α)) :
    keysOf (l.filter q) ⊆ keysOf l := by
  intro x hx
  simp only [keysOf, List.mem_map, List.mem_filter] at hx ⊢
  obtain ⟨p, ⟨hp, _⟩, rfl⟩ := hx
  exact ⟨p, hp, rfl⟩

theorem lookupKey_filter_none [DecidableEq κ] {k : κ} {l : List (κ × α)} (q : κ × α → Bool)
    (h : lookupKey k l = none) : lookupKey k (l.filter q) = none := by
  rw [lookupKey_eq_none_iff] at h ⊢
  intro hm
  exact h (keysOf_filter_subset q l hm)

theorem lookupKey_filter_not_bad [DecidableEq κ] {k : κ} {bad : List κ} (l : List (κ × α))
    (h : k ∉ bad) :
    lookupKey k (l.filter (fun p => !(decide (p.1 ∈ bad)))) = lookupKey k l := by
  induction l with
  | nil => rfl
  | cons p rest ih =>
    rw [List.filter_cons]
    by_cases hp : p.1 ∈ bad
    · have hpk : p.1 ≠ k := fun he => h (he ▸ hp)
      have hb : (!(decide (p.1 ∈ bad))) = false := by simp [hp]
      rw [hb]
      simp only [Bool.false_eq_true, if_false]
      rw [ih]
      simp [lookupKey, hpk]
    · have hb : (!(decide (p.1 ∈ bad))) = true := by simp [hp]
      rw [hb]
      simp only [if_true]
      simp only [lookupKey]
      rw [ih]

theorem mem_keysOf_filter_not_bad [DecidableEq κ] (l : List (κ × α)) (bad : List κ) (w : κ) :
    w ∈ keysOf (l.filter (fun p => !(decide (p.1 ∈ bad)))) ↔ w ∈ keysOf l ∧ w ∉ bad := by
  simp only [keysOf, List.mem_map, List.mem_filter, Bool.not_eq_true', decide_eq_false_iff_not]
  constructor
  · rintro ⟨p, ⟨hp, hbad⟩, rfl⟩
    exact ⟨⟨p, hp, rfl⟩, hbad⟩
  · rintro ⟨⟨p, hp, rfl⟩, hbad⟩
    exact ⟨p, ⟨hp, hbad⟩, rfl⟩

/-! Characterisation of the broadcast fan-out. -/

theorem broadcast_delivered_iff (st : TCPState) (ok : Nat → Bool) (ex : Option Nat) (w : Nat) :
    w ∈ (TCPChatServer.broadcast st ok ex).2.1 ↔
      w ∈ keysOf st.clients ∧ some w ≠ ex ∧ ok w = true := by
  unfold TCPChatServer.broadcast
  by_cases hemp : st.clients.isEmpty = true
  · rw [List.isEmpty_iff] at hemp
    simp [hemp, keysOf]
  · simp only [hemp, Bool.false_eq_true, if_false]
    simp only [List.mem_filter, decide_eq_true_eq]
    constructor
    · rintro ⟨⟨h1, h2⟩, h3⟩
      exact ⟨h1, h2, h3⟩
    · rintro ⟨h1, h2, h3⟩
      exact ⟨⟨h1, h2⟩, h3⟩

theorem broadcast_failed_iff (st : TCPState) (ok : Nat → Bool) (ex : Option Nat) (w : Nat) :
    w ∈ (TCPChatServer.broadcast st ok ex).2.2 ↔
      w ∈ keysOf st.clients ∧ some w ≠ ex ∧ ok w = false := by
  unfold TCPChatServer.broadcast
  by_cases hemp : st.clients.isEmpty = true
  · rw [List.isEmpty_iff] at hemp
    simp [hemp, keysOf]
  · simp only [hemp, Bool.false_eq_true, if_false]
    simp only [List.mem_filter, decide_eq_true_eq, Bool.not_eq_true']
    constructor
    · rintro ⟨⟨h1, h2⟩, h3⟩
      exact ⟨h1, h2, h3⟩
    · rintro ⟨h1, h2, h3⟩
      exact ⟨⟨h1, h2⟩, h3⟩

theorem broadcast_clients_keys (st : TCPState) (ok : Nat → Bool) (ex : Option Nat) (w : Nat) :
    w ∈ keysOf (TCPChatServer.broadcast st ok ex).1.clients ↔
      w ∈ keysOf st.clients ∧ (some w = ex ∨ ok w = true) := by
  unfold TCPChatServer.broadcast
  by_cases hemp : st.clients.isEmpty = true
  · rw [List.isEmpty_iff] at hemp
    simp [hemp, keysOf]
  · simp only [hemp, Bool.false_eq_true, if_false]
    rw [mem_keysOf_filter_not_bad]
    constructor
    · rintro ⟨hm, hnb⟩
      refine ⟨hm, ?_⟩
      by_cases hex : some w = ex
      · exact Or.inl hex
      · by_cases hok : ok w = true
        · exact Or.inr hok
        · exact absurd (by
            simp only [List.mem_filter]
            exact ⟨by simp [List.mem_filter, hm, hex], by simp [hok]⟩) hnb
    · rintro ⟨hm, hor⟩
      refine ⟨hm, ?_⟩
      intro hb
      simp only [List.mem_filter, decide_eq_true_eq] at hb
      rcases hor with h1 | h2
      · exact hb.1.2 h1
      · rw [h2] at hb
        simp at hb

theorem broadcast_fields (st : TCPState) (ok : Nat → Bool) (ex : Option Nat) :
    (TCPChatServer.broadcast st ok ex).1.messages = st.messages
    ∧ (TCPChatServer.broadcast st ok ex).1.messageCount = st.messageCount
    ∧ (TCPChatServer.broadcast st ok ex).1.ipToWriter = st.ipToWriter
    ∧ (TCPChatServer.broadcast st ok ex).1.closed = st.closed := by
  unfold TCPChatServer.broadcast
  by_cases hemp : st.clients.isEmpty = true
  · simp [hemp]
  · simp [hemp]

theorem broadcast_mem_clients (st : TCPState) (ok : Nat → Bool) (ex : Option Nat)
    {p : Nat × String} (h : p ∈ (TCPChatServer.broadcast st ok ex).1.clients) :
    p ∈ st.clients ∧ p.1 ∉ (TCPChatServer.broadcast st ok ex).2.2 := by
  unfold TCPChatServer.broadcast at h ⊢
  by_cases hemp : st.clients.isEmpty = true
  · simp only [hemp, if_true] at h ⊢
    exact ⟨h, by simp⟩
  · simp only [hemp, Bool.false_eq_true, if_false] at h ⊢
    have h2 := List.mem_filter.mp h
    refine ⟨h2.1, ?_⟩
    intro hmem
    have h3 := h2.2
    rw [decide_eq_true hmem] at h3
    simp at h3

theorem lookupKey_filter_bad_none [DecidableEq κ] {k : κ} {bad : List κ} (l : List (κ × α))
    (h : k ∈ bad) :
    lookupKey k (l.filter (fun p => !(decide (p.1 ∈ bad)))) = none := by
  rw [lookupKey_eq_none_iff]
  intro hm
  rw [mem_keysOf_filter_not_bad] at hm
  exact hm.2 h

theorem broadcast_clientInfo_failed (st : TCPState) (ok : Nat → Bool) (ex : Option Nat)
    {w : Nat} (h : w ∈ (TCPChatServer.broadcast st ok ex).2.2) :
    lookupKey w (TCPChatServer.broadcast st ok ex).1.clientInfo = none := by
  unfold TCPChatServer.broadcast at h ⊢
  by_cases hemp : st.clients.isEmpty = true
  · simp [hemp] at h
  · simp only [hemp, Bool.false_eq_true, if_false] at h ⊢
    exact lookupKey_filter_bad_none st.clientInfo h

theorem broadcast_clientInfo_lookup (st : TCPState) (ok : Nat → Bool) (ex : Option Nat)
    {w : Nat} (h : w ∉ (TCPChatServer.broadcast st ok ex).2.2) :
    lookupKey w (TCPChatServer.broadcast st ok ex).1.clientInfo = lookupKey w st.clientInfo := by
  unfold TCPChatServer.broadcast at h ⊢
  by_cases hemp : st.clients.isEmpty = true
  · simp [hemp]
  · simp only [hemp, Bool.false_eq_true, if_false] at h ⊢
    exact lookupKey_filter_not_bad st.clientInfo h

theorem broadcast_clients_lookup (st : TCPState) (ok : Nat → Bool) (ex : Option Nat)
    {w : Nat} (h : w ∉ (TCPChatServer.broadcast st ok ex).2.2) :
    lookupKey w (TCPChatServer.broadcast st ok ex).1.clients = lookupKey w st.clients := by
  unfold TCPChatServer.broadcast at h ⊢
  by_cases hemp : st.clients.isEmpty = true
  · simp [hemp]
  · simp only [hemp, Bool.false_eq_true, if_false] at h ⊢
    exact lookupKey_filter_not_bad st.clients h

theorem ws_broadcast_delivered_iff (st : WSState) (ok : Nat → Bool) (ex : Option Nat) (w : Nat) :
    w ∈ (ChatServer.broadcast st ok ex).2.1 ↔
      w ∈ keysOf st.clients ∧ some w ≠ ex ∧ ok w = true := by
  unfold ChatServer.broadcast
  by_cases hemp : st.clients.isEmpty = true
  · rw [List.isEmpty_iff] at hemp
    simp [hemp, keysOf]
  · simp only [hemp, Bool.false_eq_true, if_false]
    simp only [List.mem_filter, decide_eq_true_eq]
    constructor
    · rintro ⟨⟨h1, h2⟩, h3⟩
      exact ⟨h1, h2, h3⟩
    · rintro ⟨h1, h2, h3⟩
      exact ⟨⟨h1, h2⟩, h3⟩

theorem ws_broadcast_state_unchanged (st : WSState) (ok : Nat → Bool) (ex : Option Nat) :
    (ChatServer.broadcast st ok ex).1 = st
    ∧ (ChatServer.broadcast st ok ex).2.2 = [] := by
  unfold ChatServer.broadcast
  by_cases hemp : st.clients.isEmpty = true
  · simp [hemp]
  · simp [hemp]

/-- C1 counterexample: in the WebSocket server the claim fails.  Bob
(writer 1) broadcasts and carol's (writer 2) send fails: carol is live
at call time and not excluded, yet she neither receives the message
(she is not in the delivered list) nor is evicted — the registry is
returned completely unchanged, because the failed-clients list of the
WebSocket broadcast is always empty and gather failures are only
logged. -/
theorem claim_C1_counterexample :
    2 ∉ (ChatServer.broadcast exampleWS2 (fun _ => false) (some 1)).2.1
    ∧ (ChatServer.broadcast exampleWS2 (fun _ => false) (some 1)).1 = exampleWS2
    ∧ 2 ∈ keysOf (ChatServer.broadcast exampleWS2 (fun _ => false) (some 1)).1.clients
    ∧ 2 ∈ keysOf exampleWS2.clients := by
  refine ⟨by decide, by decide, by decide, by decide⟩

/-- C1 (amended): broadcast never delivers to the excluded session in
either persistent-transport variant.  In the TCP variant every other
session live at call time either receives the message or is removed
from the client registry by the end of the broadcast.  In the
WebSocket variant a delivery failure is only logged: the failing
session is neither delivered to nor evicted, the failed-clients list
is always empty and the registry is returned unchanged. -/
theorem claim_C1_amended_deliver_or_evict_tcp_only
    (stT : TCPState) (stW : WSState) (ok : Nat → Bool) (S : Nat) :
    S ∉ (TCPChatServer.broadcast stT ok (some S)).2.1
    ∧ (∀ w, w ∈ keysOf stT.clients → w ≠ S →
        w ∈ (TCPChatServer.broadcast stT ok (some S)).2.1
        ∨ w ∉ keysOf (TCPChatServer.broadcast stT ok (some S)).1.clients)
    ∧ S ∉ (ChatServer.broadcast stW ok (some S)).2.1
    ∧ (ChatServer.broadcast stW ok (some S)).1 = stW
    ∧ (ChatServer.broadcast stW ok (some S)).2.2 = [] := by
  refine ⟨?_, ?_, ?_, (ws_broadcast_state_unchanged stW ok (some S)).1,
    (ws_broadcast_state_unchanged stW ok (some S)).2⟩
  · intro hS
    exact ((broadcast_delivered_iff stT ok (some S) S).mp hS).2.1 rfl
  · intro w hw hne
    by_cases hok : ok w = true
    · exact Or.inl ((broadcast_delivered_iff stT ok (some S) w).mpr
        ⟨hw, by simpa using hne, hok⟩)
    · refine Or.inr ?_
      intro hmem
      rcases ((broadcast_clients_keys stT ok (some S) w).mp hmem).2 with h1 | h2
      · exact hne (by simpa using h1)
      · exact hok h2
  · intro hS
    exact ((ws_broadcast_delivered_iff stW ok (some S) S).mp hS).2.1 rfl

/-- Witness for the amended C1 at concrete states: in the TCP state
carol (writer 2) is live, not excluded, her delivery fails and she is
evicted; in the WebSocket state the registry survives the broadcast
unchanged. -/
theorem claim_C1_amended_witness :
    2 ∈ keysOf exampleTCP2.clients ∧ (2 : Nat) ≠ 1
    ∧ (2 ∈ (TCPChatServer.broadcast exampleTCP2 (fun _ => false) (some 1)).2.1
        ∨ 2 ∉ keysOf (TCPChatServer.broadcast exampleTCP2 (fun _ => false) (some 1)).1.clients)
    ∧ (ChatServer.broadcast exampleWS2 (fun _ => false) (some 1)).1 = exampleWS2 := by
  have h := claim_C1_amended_deliver_or_evict_tcp_only exampleTCP2 exampleWS2 (fun _ => false) 1
  exact ⟨by decide, by decide, h.2.1 2 (by decide) (by decide), h.2.2.2.1⟩

/-- C3 counterexample: in the TCP server a failed delivery evicts the
session from the registry but appends no "left" system message at all:
broadcasting from bob with carol's socket failing leaves the history
empty, where the claim requires exactly one "carol left" message. -/
theorem claim_C3_counterexample :
    (TCPChatServer.broadcast exampleTCP2 (fun w => decide (w = 1)) (some 1)).1.messages = []
    ∧ 2 ∉ keysOf (TCPChatServer.broadcast exampleTCP2 (fun w => decide (w = 1)) (some 1)).1.clients
    ∧ exampleTCP2.messages = [] := by
  refine ⟨?_, ?_, rfl⟩
  · exact (broadcast_fields exampleTCP2 (fun w => decide (w = 1)) (some 1)).1
  · decide

/-- C3 (amended): a failed delivery evicts the failing session from the
client registry (both `clients` and `client_info`) but — unlike a
normal disconnect — appends no "left" system message: the broadcast
leaves the history untouched, is not retried, and still delivers to
every other live recipient whose write succeeds. -/
theorem claim_C3_amended_silent_eviction (st : TCPState) (ok : Nat → Bool) (ex : Option Nat) :
    (TCPChatServer.broadcast st ok ex).1.messages = st.messages
    ∧ (∀ w, w ∈ keysOf st.clients → some w ≠ ex → ok w = false →
        w ∉ keysOf (TCPChatServer.broadcast st ok ex).1.clients
        ∧ lookupKey w (TCPChatServer.broadcast st ok ex).1.clientInfo = none)
    ∧ (∀ w, w ∈ keysOf st.clients → some w ≠ ex → ok w = true →
        w ∈ (TCPChatServer.broadcast st ok ex).2.1) := by
  refine ⟨(broadcast_fields st ok ex).1, ?_, ?_⟩
  · intro w hw hex hok
    have hfail : w ∈ (TCPChatServer.broadcast st ok ex).2.2 :=
      (broadcast_failed_iff st ok ex w).mpr ⟨hw, hex, hok⟩
    constructor
    · intro hmem
      rcases ((broadcast_clients_keys st ok ex w).mp hmem).2 with h1 | h2
      · exact hex h1
      · rw [hok] at h2
        simp at h2
    · exact broadcast_clientInfo_failed st ok ex hfail
  · intro w hw hex hok
    exact (broadcast_delivered_iff st ok ex w).mpr ⟨hw, hex, hok⟩

/-- Witness for the amended C3: in the concrete two-client state the
failing client carol is removed from both registries, the history is
untouched and bob is not affected. -/
theorem claim_C3_amended_witness :
    (TCPChatServer.broadcast exampleTCP2 (fun w => decide (w = 3)) (some 1)).1.messages
        = exampleTCP2.messages
    ∧ 2 ∉ keysOf (TCPChatServer.broadcast exampleTCP2 (fun w => decide (w = 3)) (some 1)).1.clients
    ∧ lookupKey 2 (TCPChatServer.broadcast exampleTCP2 (fun w => decide (w = 3)) (some 1)).1.clientInfo
        = none := by
  have h := claim_C3_amended_silent_eviction exampleTCP2 (fun w => decide (w = 3)) (some 1)
  have h2 := h.2.1 2 (by decide) (by decide) (by decide)
  exact ⟨h.1, h2.1, h2.2⟩

/-- C5: on a periodic compaction tick the in-memory message sequence is
cleared exactly when the snapshot write succeeded; a failed write
leaves the whole state unchanged (so the next tick retries from the
same state), in both the TCP and the HTTPS variant. -/
theorem claim_C5_compaction_clears_iff_save_succeeds
    (stT : TCPState) (stH : HTTPState) (b : Bool) :
    ((TCPChatServer.periodic_save_and_clear stT b).messages = if b then [] else stT.messages)
    ∧ TCPChatServer.periodic_save_and_clear stT false = stT
    ∧ ((HTTPChatServer.periodic_save_and_clear stH b).messages = if b then [] else stH.messages)
    ∧ HTTPChatServer.periodic_save_and_clear stH false = stH
    ∧ TCPChatServer.periodic_save_and_clear (TCPChatServer.periodic_save_and_clear stT false) b
        = TCPChatServer.periodic_save_and_clear stT b := by
  refine ⟨?_, rfl, ?_, rfl, rfl⟩
  · cases b <;> rfl
  · cases b <;> rfl

/-- C6: `remove_session` is idempotent: removing a live session returns
true and appends its "left" system message exactly once; a second
removal of the same id (or the removal of any unknown id) returns
false, changes nothing and appends no duplicate message. -/
theorem claim_C6_remove_session_idempotent (st : HTTPState) (sid ts ts2 ts3 u : String)
    (h : lookupKey sid st.clients = some u) :
    (HTTPChatServer.remove_session st sid ts).1 = true
    ∧ (HTTPChatServer.remove_session st sid ts).2.messages
        = st.messages ++ [systemMsg ts (u ++ " 离开了聊天室")]
    ∧ HTTPChatServer.remove_session (HTTPChatServer.remove_session st sid ts).2 sid ts2
        = (false, (HTTPChatServer.remove_session st sid ts).2)
    ∧ ∀ sid2, lookupKey sid2 st.clients = none →
        HTTPChatServer.remove_session st sid2 ts3 = (false, st) := by
  have hnoop : ∀ (s : HTTPState) (sidu tsu : String), lookupKey sidu s.clients = none →
      HTTPChatServer.remove_session s sidu tsu = (false, s) := by
    intro s sidu tsu h2
    simp [HTTPChatServer.remove_session, h2]
  refine ⟨?_, ?_, ?_, ?_⟩
  · simp [HTTPChatServer.remove_session, h]
  · simp [HTTPChatServer.remove_session, h]
  · have hgone : lookupKey sid (HTTPChatServer.remove_session st sid ts).2.clients = none := by
      simp [HTTPChatServer.remove_session, h, lookupKey_removeKey_self]
    exact hnoop _ sid ts2 hgone
  · intro sid2 h2
    exact hnoop st sid2 ts3 h2

/-- Witness for C6 at a concrete state: removing session sA succeeds
and appends the leave message once, and removing it again is a no-op
returning false. -/
theorem claim_C6_witness :
    (HTTPChatServer.remove_session exampleHTTP2 ("sA") ("t1")).1 = true
    ∧ (HTTPChatServer.remove_session exampleHTTP2 ("sA") ("t1")).2.messages
        = exampleHTTP2.messages ++ [systemMsg ("t1") ("alice" ++ " 离开了聊天室")]
    ∧ HTTPChatServer.remove_session
          (HTTPChatServer.remove_session exampleHTTP2 ("sA") ("t1")).2 ("sA") ("t2")
        = (false, (HTTPChatServer.remove_session exampleHTTP2 ("sA") ("t1")).2) := by
  have h := claim_C6_remove_session_idempotent exampleHTTP2 ("sA") ("t1") ("t2") ("t3")
    ("alice") (by decide)
  exact ⟨h.1, h.2.1, h.2.2.1⟩

/-- C7: every operation referencing an unknown or expired session id
returns its typed error result and leaves the whole server state
unchanged: `send_message` returns the error payload, `update_activity`
returns false, and polling with that session id returns the 401
session-expired result. -/
theorem claim_C7_unknown_session_typed_error (st : HTTPState)
    (sid message ts uptimeStr : String) (now since : Nat) (saveOk : Bool)
    (hunk : lookupKey sid st.clients = none) (hne : sid ≠ "") :
    HTTPChatServer.send_message st sid message ts uptimeStr now saveOk
        = (SendResult.err ("无效的会话ID，可能已超时"), st)
    ∧ HTTPChatServer.update_activity st sid now = (false, st)
    ∧ HTTPChatServer.poll_messages st since sid now = (PollResult.expired, st) := by
  have hhk : hasKey sid st.clients = false := by simp [hasKey, hunk]
  refine ⟨?_, ?_, ?_⟩
  · simp [HTTPChatServer.send_message, hunk]
  · simp [HTTPChatServer.update_activity, hhk]
  · simp [HTTPChatServer.poll_messages, hne, HTTPChatServer.update_activity, hhk]

/-- Witness for C7 at a concrete state with an unknown session id. -/
theorem claim_C7_witness :
    HTTPChatServer.send_message exampleHTTP2 ("sX") ("hello") ("t1") ("u") 5 true
        = (SendResult.err ("无效的会话ID，可能已超时"), exampleHTTP2)
    ∧ HTTPChatServer.update_activity exampleHTTP2 ("sX") 5 = (false, exampleHTTP2)
    ∧ HTTPChatServer.poll_messages exampleHTTP2 0 ("sX") 5
        = (PollResult.expired, exampleHTTP2) := by
  exact claim_C7_unknown_session_typed_error exampleHTTP2 ("sX") ("hello") ("t1") ("u") 5 0 true
    (by decide) (by decide)

/-- C8 counterexample: in the HTTPS server a command reply is appended
to the shared history, so another session's poll returns it — the reply
is not delivered only to the invoking session.  Concretely, after
session sA sends `/ping`, session sB's poll contains the Pong reply. -/
theorem claim_C8_counterexample :
    (HTTPChatServer.poll_messages
        (HTTPChatServer.send_message exampleHTTP2 ("sA") ("/ping") ("t1") ("u") 5 true).2
        0 ("sB") 6).1
      = PollResult.polled [systemMsg ("t1") ("Pong! 服务器运行正常")] 1 := by decide

/-- C8 (amended): in the TCP server a command reply is written only to
the invoking session's handle and the state (live sessions, history,
counter) is untouched.  In the HTTPS server the live session set is
likewise unchanged, but for every command except `/savelog` the reply
is appended to the shared history and is therefore visible to every
polling session; an HTTPS `/savelog` never produces a reply at all —
`handle_command` runs under the non-reentrant lock held by
`send_message` and `_save_logs_to_file` tries to re-acquire it,
deadlocking, so the call never returns and nothing is appended (only
the activity refresh has happened at the point of blocking). -/
theorem claim_C8_amended_command_replies (stT : TCPState) (stH : HTTPState)
    (writer : Nat) (command ts uptimeStr sid : String) (saveOk : Bool) (now : Nat) :
    (TCPChatServer.handle_command stT writer command ts uptimeStr saveOk).1 = stT
    ∧ (∀ p ∈ (TCPChatServer.handle_command stT writer command ts uptimeStr saveOk).2,
        p.1 = writer)
    ∧ (∀ st2 resp,
        HTTPChatServer.handle_command stH command ts uptimeStr saveOk = some (st2, resp) →
        st2.clients = stH.clients ∧ st2.messages = stH.messages ++ [resp])
    ∧ (strToLower (firstToken command) = "/savelog" →
        HTTPChatServer.handle_command stH command ts uptimeStr saveOk = none)
    ∧ (∀ u, lookupKey sid stH.clients = some u →
        HTTPChatServer.send_message stH sid ("/savelog") ts uptimeStr now saveOk
          = (SendResult.deadlocked,
             { stH with clientActivity := setKey sid now stH.clientActivity })) := by
  refine ⟨rfl, ?_, ?_, ?_, ?_⟩
  · intro p hp
    simp only [TCPChatServer.handle_command, List.mem_singleton] at hp
    rw [hp]
  · intro st2 resp heq
    unfold HTTPChatServer.handle_command at heq
    by_cases hcmd : strToLower (firstToken command) = "/savelog"
    · rw [if_pos hcmd] at heq
      exact Option.noConfusion heq
    · rw [if_neg hcmd] at heq
      injection heq with heq2
      injection heq2 with h1 h2
      rw [← h1, ← h2]
      exact ⟨rfl, rfl⟩
  · intro hcmd
    unfold HTTPChatServer.handle_command
    rw [if_pos hcmd]
  · intro u hu
    have hsw : strStartsWith ("/savelog") ("/") = true := by decide
    have hcsl : strToLower (firstToken ("/savelog")) = "/savelog" := by decide
    simp [HTTPChatServer.send_message, hu, hsw, HTTPChatServer.handle_command, hcsl]

/-- Witness for the amended C8 at concrete inputs: the TCP `/savelog`
reply goes only to the invoking writer with the state unchanged, the
HTTPS `/savelog` dispatch never returns, and through `send_message` it
surfaces as the deadlocked outcome with only the activity refreshed. -/
theorem claim_C8_amended_witness :
    (TCPChatServer.handle_command exampleTCP2 1 ("/savelog") ("t1") ("u") true).1 = exampleTCP2
    ∧ (∀ p ∈ (TCPChatServer.handle_command exampleTCP2 1 ("/savelog") ("t1") ("u") true).2,
        p.1 = 1)
    ∧ HTTPChatServer.handle_command exampleHTTP2 ("/savelog") ("t1") ("u") true = none
    ∧ HTTPChatServer.send_message exampleHTTP2 ("sA") ("/savelog") ("t1") ("u") 5 true
        = (SendResult.deadlocked,
           { exampleHTTP2 with clientActivity := setKey ("sA") 5 exampleHTTP2.clientActivity }) := by
  have h := claim_C8_amended_command_replies exampleTCP2 exampleHTTP2 1
    ("/savelog") ("t1") ("u") ("sA") true 5
  exact ⟨h.1, h.2.1, h.2.2.2.1 (by decide), h.2.2.2.2 ("alice") (by decide)⟩

/-- C10 counterexample: in the TCP server the `/savelog` line itself
increments the cumulative message counter (the receive loop counts
every non-noise line before dispatching commands), so a manual
`/savelog` does not leave the `/stats` counter unchanged. -/
theorem claim_C10_counterexample :
    (TCPChatServer.process_line exampleTCP1 1 ("bob") ("/savelog") ("t1") ("u") true
        (fun _ => true)).1.messageCount = 1
    ∧ exampleTCP1.messageCount = 0
    ∧ (TCPChatServer.process_line exampleTCP1 1 ("bob") ("/savelog") ("t1") ("u") true
        (fun _ => true)).1.messages = exampleTCP1.messages := by
  refine ⟨by decide, rfl, by decide⟩

/-- C10 (amended): every successful compaction resets the cumulative
message counter to zero together with emptying the in-memory message
sequence (in both variants), so the `/stats` counter and the history
length restart from zero; processing a manual `/savelog` performs no
clear — the TCP history is left unchanged and the counter is not reset,
but the counter does grow by exactly one because the command line is
counted by the receive loop. -/
theorem claim_C10_amended_compaction_resets_counter (stT : TCPState) (stH : HTTPState)
    (writer : Nat) (username ts uptimeStr : String) (saveOk : Bool) (ok : Nat → Bool) :
    (TCPChatServer.clear_memory stT).messages = []
    ∧ (TCPChatServer.clear_memory stT).messageCount = 0
    ∧ (HTTPChatServer.clear_memory stH).messages = []
    ∧ (HTTPChatServer.clear_memory stH).messageCount = 0
    ∧ (TCPChatServer.periodic_save_and_clear stT true).messageCount = 0
    ∧ (TCPChatServer.periodic_save_and_clear stT true).messages = []
    ∧ (TCPChatServer.process_line stT writer username ("/savelog") ts uptimeStr saveOk ok).1.messages
        = stT.messages
    ∧ (TCPChatServer.process_line stT writer username ("/savelog") ts uptimeStr saveOk ok).1.messageCount
        = stT.messageCount + 1 := by
  have hne : ("/savelog" : String) = "" ↔ False := by simp
  have hnoise : isHttpNoise ("/savelog") = false := by decide
  have hsw : strStartsWith ("/savelog") ("/") = true := by decide
  refine ⟨rfl, rfl, rfl, rfl, rfl, rfl, ?_, ?_⟩
  · simp [TCPChatServer.process_line, hne, hnoise, hsw, TCPChatServer.handle_command]
  · simp [TCPChatServer.process_line, hne, hnoise, hsw, TCPChatServer.handle_command]

/-- C2 counterexample: in the HTTPS server a second `create_session`
with the same requested name does not resolve to `alice_1` — it first
evicts the existing session bound to that name and then reuses the name
unchanged, so the two resolved names are equal (not pairwise distinct)
and the first session is no longer live. -/
theorem claim_C2_counterexample :
    (HTTPChatServer.create_session exampleHTTP0 ("alice") ("t1") ("s1") 10).2.2 = "alice"
    ∧ (HTTPChatServer.create_session
          (HTTPChatServer.create_session exampleHTTP0 ("alice") ("t1") ("s1") 10).1
          ("alice") ("t2") ("s2") 20).2.2 = "alice"
    ∧ hasKey (HTTPChatServer.create_session exampleHTTP0 ("alice") ("t1") ("s1") 10).2.1
        (HTTPChatServer.create_session
            (HTTPChatServer.create_session exampleHTTP0 ("alice") ("t1") ("s1") 10).1
            ("alice") ("t2") ("s2") 20).1.clients = false := by
  refine ⟨by decide, by decide, by decide⟩

/-- C2 (amended): the name-resolution step itself behaves exactly as
claimed as long as the previously created sessions are still live when
the next one is created: the resolved name is never a live name, a free
requested name is kept unchanged, a colliding one gets the smallest
free `_k` suffix, the resolved names of a sequence of creations (each
staying live) are pairwise distinct, and from a live set without
suffixed candidates the sequence is exactly `name`, `name_1`,
`name_2`, ….  (In the HTTPS variant a same-name creation instead evicts
the previous session first and reuses the name, see the
counterexample.) -/
theorem claim_C2_amended_name_resolution (orig : String) (live : List String) :
    (∀ n, (resolveSeq orig live n).Nodup)
    ∧ resolveName orig live ∉ live
    ∧ (orig ∉ live → resolveName orig live = orig)
    ∧ (orig ∈ live → ∃ k, 1 ≤ k ∧ resolveName orig live = mkCand orig k
        ∧ mkCand orig k ∉ live ∧ ∀ i, 1 ≤ i → i < k → mkCand orig i ∈ live)
    ∧ (orig ∉ live → (∀ k, mkCand orig k ∉ live) →
        ∀ n, resolveSeq orig live (n + 1)
          = orig :: (List.range n).map (fun i => mkCand orig (i + 1))) := by
  refine ⟨fun n => resolveSeq_nodup orig n live, resolveName_not_mem orig live,
    fun h => resolveName_of_not_mem h, fun h => resolveName_least orig live h, ?_⟩
  intro hno hcand n
  simp only [resolveSeq]
  rw [resolveName_of_not_mem hno]
  rw [resolveSeq_pattern orig n 0 (orig :: live) (List.mem_cons_self _ _)
    (by
      intro k _
      simp only [List.mem_cons]
      rintro (he | hm)
      · exact mkCand_ne orig k he
      · exact hcand k hm)
    (by
      intro k hk1 hk2
      omega)]

/-- Witness for the amended C2 at concrete inputs: a free name is kept,
three creations yield `alice`, `alice_1`, `alice_2`, a colliding
creation gets the `_1` suffix, and the resolved sequence is duplicate
free. -/
theorem claim_C2_witness :
    resolveName ("alice") [] = "alice"
    ∧ resolveSeq ("alice") [] 3 = ["alice", "alice" ++ "_" ++ Nat.repr 1, "alice" ++ "_" ++ Nat.repr 2]
    ∧ resolveName ("alice") ["alice"] ∉ (["alice"] : List String)
    ∧ (resolveSeq ("alice") ["bob"] 2).Nodup := by
  refine ⟨?_, ?_, ?_, ?_⟩
  · exact (claim_C2_amended_name_resolution ("alice") []).2.2.1 (by simp)
  · have h := (claim_C2_amended_name_resolution ("alice") []).2.2.2.2 (by simp) (by simp) 2
    rw [h]
    rfl
  · exact (claim_C2_amended_name_resolution ("alice") ["alice"]).2.1
  · exact (claim_C2_amended_name_resolution ("alice") ["bob"]).1 2

/-! Lemmas for the peer-deduplication claim. -/

theorem broadcast_clients_none (st : TCPState) (ok : Nat → Bool) (ex : Option Nat)
    {w : Nat} (h : lookupKey w st.clients = none) :
    lookupKey w (TCPChatServer.broadcast st ok ex).1.clients = none := by
  unfold TCPChatServer.broadcast
  by_cases hemp : st.clients.isEmpty = true
  · simpa [hemp] using h
  · simp only [hemp, Bool.false_eq_true, if_false]
    exact lookupKey_filter_none _ h

theorem broadcast_clientInfo_none (st : TCPState) (ok : Nat → Bool) (ex : Option Nat)
    {w : Nat} (h : lookupKey w st.clientInfo = none) :
    lookupKey w (TCPChatServer.broadcast st ok ex).1.clientInfo = none := by
  unfold TCPChatServer.broadcast
  by_cases hemp : st.clients.isEmpty = true
  · simpa [hemp] using h
  · simp only [hemp, Bool.false_eq_true, if_false]
    exact lookupKey_filter_none _ h

theorem broadcast_not_failed_of_excluded (st : TCPState) (ok : Nat → Bool) (w : Nat) :
    w ∉ (TCPChatServer.broadcast st ok (some w)).2.2 := by
  intro h
  exact ((broadcast_failed_iff st ok (some w) w).mp h).2.1 rfl

theorem broadcast_clients_all_ok (st : TCPState) (ok : Nat → Bool) (ex : Option Nat)
    (hok : ∀ x, ok x = true) :
    (TCPChatServer.broadcast st ok ex).1.clients = st.clients := by
  unfold TCPChatServer.broadcast
  by_cases hemp : st.clients.isEmpty = true
  · simp [hemp]
  · simp only [hemp, Bool.false_eq_true, if_false]
    have hfail : ((keysOf st.clients).filter (fun w => decide (some w ≠ ex))).filter
        (fun w => !(ok w)) = [] := by
      rw [List.filter_eq_nil_iff]
      intro a _
      simp [hok a]
    rw [hfail]
    rw [List.filter_eq_self]
    intro p _
    simp

theorem perPeerOK_iff (st : TCPState) :
    TCPChatServer.perPeerOK st = true ↔
      ∀ w u, (w, u) ∈ st.clients →
        ∃ ipx, lookupKey w st.clientInfo = some ipx
          ∧ lookupKey ipx st.ipToWriter = some w := by
  unfold TCPChatServer.perPeerOK
  rw [List.all_eq_true]
  constructor
  · intro h w u hm
    have h2 : (match lookupKey w st.clientInfo with
        | some ipx => decide (lookupKey ipx st.ipToWriter = some w)
        | none => false) = true := h (w, u) hm
    cases ho : lookupKey w st.clientInfo with
    | none =>
      rw [ho] at h2
      simp at h2
    | some ipx =>
      rw [ho] at h2
      have h3 : decide (lookupKey ipx st.ipToWriter = some w) = true := h2
      exact ⟨ipx, rfl, of_decide_eq_true h3⟩
  · intro h p hp
    obtain ⟨ipx, h1, h2⟩ := h p.1 p.2 hp
    show (match lookupKey p.1 st.clientInfo with
      | some ipx => decide (lookupKey ipx st.ipToWriter = some p.1)
      | none => false) = true
    rw [h1]
    exact decide_eq_true h2

theorem perPeerOK_unique_ip (st : TCPState) (h : TCPChatServer.perPeerOK st = true) :
    ∀ w1 u1 w2 u2 ipx, (w1, u1) ∈ st.clients → (w2, u2) ∈ st.clients →
      lookupKey w1 st.clientInfo = some ipx → lookupKey w2 st.clientInfo = some ipx →
      w1 = w2 := by
  intro w1 u1 w2 u2 ipx h1 h2 hi1 hi2
  obtain ⟨ip1, hl1, hw1⟩ := (perPeerOK_iff st).mp h w1 u1 h1
  obtain ⟨ip2, hl2, hw2⟩ := (perPeerOK_iff st).mp h w2 u2 h2
  rw [hi1] at hl1
  rw [hi2] at hl2
  injection hl1 with he1
  injection hl2 with he2
  rw [← he1] at hw1
  rw [← he2] at hw2
  rw [hw1] at hw2
  injection hw2

theorem handle_client_connect_eq (st : TCPState) (writer oldW : Nat)
    (ip requested ts : String) (okJoin : Nat → Bool)
    (hold : lookupKey ip st.ipToWriter = some oldW)
    (holdLive : hasKey oldW st.clients = true) :
    TCPChatServer.handle_client_connect st writer ip requested ts okJoin
      = (TCPChatServer.broadcast
          { clients := setKey writer
              (resolveName requested (valuesOf (removeKey oldW st.clients)))
              (removeKey oldW st.clients),
            clientInfo := setKey writer ip (removeKey oldW st.clientInfo),
            ipToWriter := setKey ip writer st.ipToWriter,
            messages := st.messages ++ [systemMsg ts
              (resolveName requested (valuesOf (removeKey oldW st.clients)) ++ " 加入了聊天室")],
            messageCount := st.messageCount,
            closed := st.closed ++ [oldW] } okJoin (some writer)).1 := by
  unfold TCPChatServer.handle_client_connect
  simp only [hold, holdLive, if_true]

/-- C4: when a new connection arrives from a peer ip that already owns
a live session, the old session is forcibly evicted — its handle is
closed and it is removed from `clients` and `client_info` — and the new
session becomes the live one for that peer; the per-peer well-formedness
invariant is preserved, so at most one live session per peer address
exists afterwards, and when the join broadcast succeeds everywhere the
online count is unchanged (one evicted, one added). -/
theorem claim_C4_single_session_per_peer (st : TCPState) (writer oldW : Nat)
    (ip requested ts : String) (okJoin : Nat → Bool)
    (hWF : TCPChatServer.perPeerOK st = true)
    (hnodup : (keysOf st.clients).Nodup)
    (hfreshC : hasKey writer st.clients = false)
    (hold : lookupKey ip st.ipToWriter = some oldW)
    (holdLive : hasKey oldW st.clients = true) :
    lookupKey oldW (TCPChatServer.handle_client_connect st writer ip requested ts okJoin).clients
        = none
    ∧ lookupKey oldW (TCPChatServer.handle_client_connect st writer ip requested ts okJoin).clientInfo
        = none
    ∧ oldW ∈ (TCPChatServer.handle_client_connect st writer ip requested ts okJoin).closed
    ∧ lookupKey ip (TCPChatServer.handle_client_connect st writer ip requested ts okJoin).ipToWriter
        = some writer
    ∧ lookupKey writer (TCPChatServer.handle_client_connect st writer ip requested ts okJoin).clients
        = some (resolveName requested (valuesOf (removeKey oldW st.clients)))
    ∧ TCPChatServer.perPeerOK (TCPChatServer.handle_client_connect st writer ip requested ts okJoin)
        = true
    ∧ (∀ w1 u1 w2 u2 ipx,
        (w1, u1) ∈ (TCPChatServer.handle_client_connect st writer ip requested ts okJoin).clients →
        (w2, u2) ∈ (TCPChatServer.handle_client_connect st writer ip requested ts okJoin).clients →
        lookupKey w1 (TCPChatServer.handle_client_connect st writer ip requested ts okJoin).clientInfo
            = some ipx →
        lookupKey w2 (TCPChatServer.handle_client_connect st writer ip requested ts okJoin).clientInfo
            = some ipx →
        w1 = w2)
    ∧ ((∀ x, okJoin x = true) →
        (TCPChatServer.handle_client_connect st writer ip requested ts okJoin).clients.length
          = st.clients.length) := by
  have hlw : lookupKey writer st.clients = none := by
    cases hv : lookupKey writer st.clients with
    | none => rfl
    | some v => simp [hasKey, hv] at hfreshC
  have hloldC : ∃ uo, lookupKey oldW st.clients = some uo := by
    cases hv : lookupKey oldW st.clients with
    | none => simp [hasKey, hv] at holdLive
    | some v => exact ⟨v, rfl⟩
  have hne : writer ≠ oldW := by
    intro he
    obtain ⟨uo, huo⟩ := hloldC
    rw [he] at hlw
    rw [hlw] at huo
    exact Option.noConfusion huo
  have hnwo : oldW ≠ writer := fun he => hne he.symm
  rw [handle_client_connect_eq st writer oldW ip requested ts okJoin hold holdLive]
  have hwnr : hasKey writer (removeKey oldW st.clients) = false := by
    rw [hasKey, lookupKey_removeKey_ne hne, hlw]
    rfl
  have hsetapp : setKey writer (resolveName requested (valuesOf (removeKey oldW st.clients)))
      (removeKey oldW st.clients)
      = removeKey oldW st.clients
        ++ [(writer, resolveName requested (valuesOf (removeKey oldW st.clients)))] :=
    setKey_of_not_has _ hwnr
  have hRc_old : lookupKey oldW (setKey writer
      (resolveName requested (valuesOf (removeKey oldW st.clients)))
      (removeKey oldW st.clients)) = none := by
    rw [lookupKey_setKey_ne hnwo]
    exact lookupKey_removeKey_self oldW st.clients
  have hRi_old : lookupKey oldW (setKey writer ip (removeKey oldW st.clientInfo)) = none := by
    rw [lookupKey_setKey_ne hnwo]
    exact lookupKey_removeKey_self oldW st.clientInfo
  have hPP : TCPChatServer.perPeerOK
      (TCPChatServer.broadcast
        { clients := setKey writer
            (resolveName requested (valuesOf (removeKey oldW st.clients)))
            (removeKey oldW st.clients),
          clientInfo := setKey writer ip (removeKey oldW st.clientInfo),
          ipToWriter := setKey ip writer st.ipToWriter,
          messages := st.messages ++ [systemMsg ts
            (resolveName requested (valuesOf (removeKey oldW st.clients)) ++ " 加入了聊天室")],
          messageCount := st.messageCount,
          closed := st.closed ++ [oldW] } okJoin (some writer)).1 = true := by
    rw [perPeerOK_iff]
    intro x u hmem
    have hmem2 := broadcast_mem_clients _ okJoin (some writer) hmem
    have hmemR : (x, u) ∈ removeKey oldW st.clients
        ++ [(writer, resolveName requested (valuesOf (removeKey oldW st.clients)))] := by
      rw [← hsetapp]
      exact hmem2.1
    rcases List.mem_append.mp hmemR with hin | hin
    · have hx := mem_removeKey.mp hin
      have hxw : x ≠ writer := by
        intro he
        rw [lookupKey_eq_none_iff] at hlw
        exact hlw (he ▸ List.mem_map.mpr ⟨(x, u), hx.1, rfl⟩)
      obtain ⟨ipx, hi1, hi2⟩ := (perPeerOK_iff st).mp hWF x u hx.1
      refine ⟨ipx, ?_, ?_⟩
      · rw [broadcast_clientInfo_lookup _ okJoin (some writer) hmem2.2]
        show lookupKey x (setKey writer ip (removeKey oldW st.clientInfo)) = some ipx
        rw [lookupKey_setKey_ne hxw, lookupKey_removeKey_ne hx.2]
        exact hi1
      · rw [(broadcast_fields _ okJoin (some writer)).2.2.1]
        show lookupKey ipx (setKey ip writer st.ipToWriter) = some x
        by_cases hip : ipx = ip
        · exfalso
          rw [hip, hold] at hi2
          injection hi2 with he
          exact hx.2 he.symm
        · rw [lookupKey_setKey_ne hip]
          exact hi2
    · simp only [List.mem_singleton] at hin
      injection hin with h1 h2
      refine ⟨ip, ?_, ?_⟩
      · rw [h1]
        rw [broadcast_clientInfo_lookup _ okJoin (some writer) (h1 ▸ hmem2.2)]
        exact lookupKey_setKey_self writer ip (removeKey oldW st.clientInfo)
      · rw [h1]
        rw [(broadcast_fields _ okJoin (some writer)).2.2.1]
        exact lookupKey_setKey_self ip writer st.ipToWriter
  refine ⟨?_, ?_, ?_, ?_, ?_, hPP, perPeerOK_unique_ip _ hPP, ?_⟩
  · exact broadcast_clients_none _ okJoin (some writer) hRc_old
  · exact broadcast_clientInfo_none _ okJoin (some writer) hRi_old
  · rw [(broadcast_fields _ okJoin (some writer)).2.2.2]
    simp
  · rw [(broadcast_fields _ okJoin (some writer)).2.2.1]
    exact lookupKey_setKey_self ip writer st.ipToWriter
  · rw [broadcast_clients_lookup _ okJoin (some writer)
      (broadcast_not_failed_of_excluded _ okJoin writer)]
    exact lookupKey_setKey_self writer _ (removeKey oldW st.clients)
  · intro hok
    rw [broadcast_clients_all_ok _ okJoin (some writer) hok]
    show (setKey writer (resolveName requested (valuesOf (removeKey oldW st.clients)))
        (removeKey oldW st.clients)).length = st.clients.length
    rw [hsetapp, List.length_append, List.length_singleton]
    exact length_removeKey_of_mem hnodup holdLive

/-- Witness for C4: a second connection from the same peer ip evicts
the first; after it only writer 2 is live and the online count is 1. -/
theorem claim_C4_witness :
    TCPChatServer.perPeerOK exampleTCPalice = true
    ∧ lookupKey 1 (TCPChatServer.handle_client_connect exampleTCPalice 2 ("ip1") ("bob") ("t1")
        (fun _ => true)).clients = none
    ∧ lookupKey 2 (TCPChatServer.handle_client_connect exampleTCPalice 2 ("ip1") ("bob") ("t1")
        (fun _ => true)).clients = some ("bob")
    ∧ (TCPChatServer.handle_client_connect exampleTCPalice 2 ("ip1") ("bob") ("t1")
        (fun _ => true)).clients.length = 1 := by
  have h := claim_C4_single_session_per_peer exampleTCPalice 2 1 ("ip1") ("bob") ("t1")
    (fun _ => true) (by decide) (by decide) (by decide) (by decide) (by decide)
  refine ⟨by decide, h.1, ?_, ?_⟩
  · have h5 := h.2.2.2.2.1
    rw [h5]
    decide
  · have h8 := h.2.2.2.2.2.2.2 (fun x => rfl)
    rw [h8]
    decide

/-! Lemmas for the liveness sweeper. -/

theorem sweep_one_clients_none (ts : String) (s : HTTPState) (sid sid2 : String)
    (h : lookupKey sid s.clients = none) :
    lookupKey sid (HTTPChatServer.sweep_one ts s sid2).clients = none := by
  unfold HTTPChatServer.sweep_one
  cases ho : lookupKey sid2 s.clients with
  | none =>
    simp only [ho]
    exact h
  | some u =>
    simp only [ho]
    by_cases he : sid = sid2
    · rw [he]
      exact lookupKey_removeKey_self _ _
    · rw [lookupKey_removeKey_ne he]
      exact h

theorem sweep_one_ne (ts : String) (s : HTTPState) (sid sid2 : String) (hne : sid ≠ sid2) :
    lookupKey sid (HTTPChatServer.sweep_one ts s sid2).clients = lookupKey sid s.clients
    ∧ lookupKey sid (HTTPChatServer.sweep_one ts s sid2).clientActivity
        = lookupKey sid s.clientActivity := by
  unfold HTTPChatServer.sweep_one
  cases ho : lookupKey sid2 s.clients with
  | none =>
    simp [ho]
  | some u =>
    simp only [ho]
    exact ⟨lookupKey_removeKey_ne hne _, lookupKey_removeKey_ne hne _⟩

theorem sweep_one_messages_mono (ts : String) (s : HTTPState) (sid2 : String) {m : Msg}
    (h : m ∈ s.messages) : m ∈ (HTTPChatServer.sweep_one ts s sid2).messages := by
  unfold HTTPChatServer.sweep_one
  cases ho : lookupKey sid2 s.clients with
  | none =>
    simp only [ho]
    exact h
  | some u =>
    simp only [ho]
    exact List.mem_append_left _ h

theorem foldl_sweep_clients_none (ts : String) :
    ∀ (L : List String) (s : HTTPState) (sid : String),
      lookupKey sid s.clients = none →
      lookupKey sid (L.foldl (HTTPChatServer.sweep_one ts) s).clients = none := by
  intro L
  induction L with
  | nil =>
    intro s sid h
    exact h
  | cons a rest ih =>
    intro s sid h
    rw [List.foldl_cons]
    exact ih _ sid (sweep_one_clients_none ts s sid a h)

theorem foldl_sweep_messages_mono (ts : String) :
    ∀ (L : List String) (s : HTTPState) {m : Msg}, m ∈ s.messages →
      m ∈ (L.foldl (HTTPChatServer.sweep_one ts) s).messages := by
  intro L
  induction L with
  | nil =>
    intro s m h
    exact h
  | cons a rest ih =>
    intro s m h
    rw [List.foldl_cons]
    exact ih _ (sweep_one_messages_mono ts s a h)

theorem foldl_sweep_not_mem (ts : String) :
    ∀ (L : List String) (s : HTTPState) (sid : String), sid ∉ L →
      lookupKey sid (L.foldl (HTTPChatServer.sweep_one ts) s).clients = lookupKey sid s.clients
      ∧ lookupKey sid (L.foldl (HTTPChatServer.sweep_one ts) s).clientActivity
          = lookupKey sid s.clientActivity := by
  intro L
  induction L with
  | nil =>
    intro s sid _
    exact ⟨rfl, rfl⟩
  | cons a rest ih =>
    intro s sid h
    have hne : sid ≠ a := fun he => h (he ▸ List.mem_cons_self _ _)
    have hrest : sid ∉ rest := fun hm => h (List.mem_cons_of_mem _ hm)
    rw [List.foldl_cons]
    obtain ⟨h1, h2⟩ := sweep_one_ne ts s sid a hne
    obtain ⟨ih1, ih2⟩ := ih (HTTPChatServer.sweep_one ts s a) sid hrest
    exact ⟨by rw [ih1, h1], by rw [ih2, h2]⟩

theorem foldl_sweep_evicts (ts : String) :
    ∀ (L : List String) (s : HTTPState) (sid : String), L.Nodup → sid ∈ L →
      lookupKey sid (L.foldl (HTTPChatServer.sweep_one ts) s).clients = none
      ∧ ∀ u, lookupKey sid s.clients = some u →
          systemMsg ts (u ++ " 连接超时，已离开聊天室")
            ∈ (L.foldl (HTTPChatServer.sweep_one ts) s).messages := by
  intro L
  induction L with
  | nil =>
    intro s sid _ h
    simp at h
  | cons a rest ih =>
    intro s sid hnd hmem
    rw [List.nodup_cons] at hnd
    rw [List.foldl_cons]
    rcases List.mem_cons.mp hmem with he | hm
    · subst he
      constructor
      · apply foldl_sweep_clients_none
        unfold HTTPChatServer.sweep_one
        cases ho : lookupKey sid s.clients with
        | none =>
          simp only [ho]
        | some u =>
          simp only [ho]
          exact lookupKey_removeKey_self _ _
      · intro u hu
        apply foldl_sweep_messages_mono
        unfold HTTPChatServer.sweep_one
        simp [hu]
    · have hne : sid ≠ a := fun he => hnd.1 (he ▸ hm)
      obtain ⟨hc, _⟩ := sweep_one_ne ts s sid a hne
      obtain ⟨ih1, ih2⟩ := ih (HTTPChatServer.sweep_one ts s a) sid hnd.2 hm
      refine ⟨ih1, ?_⟩
      intro u hu
      exact ih2 u (by rw [hc]; exact hu)

/-- C9: on a sweep tick every session whose last activity is older than
the 300 second timeout is evicted from the registry and a system leave
message for it is appended, while every session refreshed within the
timeout window survives the tick with its registry entry and activity
time unchanged. -/
theorem claim_C9_sweeper_evicts_stale_keeps_fresh (st : HTTPState) (now : Nat) (ts : String)
    (hnodupA : (keysOf st.clientActivity).Nodup) :
    ∀ sid t, lookupKey sid st.clientActivity = some t →
      (now - t > 300 →
        lookupKey sid (HTTPChatServer.cleanup_inactive_sessions st now ts).clients = none
        ∧ ∀ u, lookupKey sid st.clients = some u →
            systemMsg ts (u ++ " 连接超时，已离开聊天室")
              ∈ (HTTPChatServer.cleanup_inactive_sessions st now ts).messages)
      ∧ (now - t ≤ 300 →
        lookupKey sid (HTTPChatServer.cleanup_inactive_sessions st now ts).clients
            = lookupKey sid st.clients
        ∧ lookupKey sid (HTTPChatServer.cleanup_inactive_sessions st now ts).clientActivity
            = some t) := by
  intro sid t ht
  have hinactive_nodup : ((st.clientActivity.filter
      (fun p => decide (now - p.2 > 300))).map Prod.fst).Nodup := by
    have hsub : (st.clientActivity.filter (fun p => decide (now - p.2 > 300))).Sublist
        st.clientActivity := List.filter_sublist _
    exact hnodupA.sublist (hsub.map Prod.fst)
  constructor
  · intro hgt
    have hmem : sid ∈ (st.clientActivity.filter
        (fun p => decide (now - p.2 > 300))).map Prod.fst := by
      refine List.mem_map.mpr ⟨(sid, t), ?_, rfl⟩
      rw [List.mem_filter]
      exact ⟨mem_of_lookupKey_eq_some ht, by simpa using hgt⟩
    exact foldl_sweep_evicts ts _ st sid hinactive_nodup hmem
  · intro hle
    have hnm : sid ∉ (st.clientActivity.filter
        (fun p => decide (now - p.2 > 300))).map Prod.fst := by
      intro hmem
      obtain ⟨p, hp, hfst⟩ := List.mem_map.mp hmem
      rw [List.mem_filter] at hp
      have hpmem : (sid, p.2) ∈ st.clientActivity := by
        rw [← hfst]
        exact hp.1
      have hlk := lookupKey_eq_some_of_mem hnodupA hpmem
      rw [ht] at hlk
      injection hlk with he
      have hgt2 : now - p.2 > 300 := of_decide_eq_true hp.2
      omega
    have h := foldl_sweep_not_mem ts _ st sid hnm
    constructor
    · exact h.1
    · show lookupKey sid (List.foldl (HTTPChatServer.sweep_one ts) st
        ((st.clientActivity.filter (fun p => decide (now - p.2 > 300))).map
          Prod.fst)).clientActivity = some t
      rw [h.2]
      exact ht

/-- Witness for C9: with the sweep running at time 1000, the session
with last activity 0 is evicted and its timeout leave message appended,
while the session refreshed at time 900 survives unchanged. -/
theorem claim_C9_witness :
    lookupKey ("s1") (HTTPChatServer.cleanup_inactive_sessions exampleHTTPsweep 1000 ("t")).clients
        = none
    ∧ systemMsg ("t") ("alice" ++ " 连接超时，已离开聊天室")
        ∈ (HTTPChatServer.cleanup_inactive_sessions exampleHTTPsweep 1000 ("t")).messages
    ∧ lookupKey ("s2") (HTTPChatServer.cleanup_inactive_sessions exampleHTTPsweep 1000 ("t")).clients
        = some ("bob")
    ∧ lookupKey ("s2") (HTTPChatServer.cleanup_inactive_sessions exampleHTTPsweep 1000 ("t")).clientActivity
        = some 900 := by
  have h := claim_C9_sweeper_evicts_stale_keeps_fresh exampleHTTPsweep 1000 ("t") (by decide)
  have h1 := (h ("s1") 0 (by decide)).1 (by decide)
  have h2 := (h ("s2") 900 (by decide)).2 (by decide)
  refine ⟨h1.1, h1.2 ("alice") (by decide), ?_, h2.2⟩
  rw [h2.1]
  decide
